import Mathlib

/-!
Shallow embedding of the core of the `opaque` Go repository (OPAQUE aPAKE):
the `Configuration` serialization (`opaque.go`) and the 3DH authenticated key
exchange core (`internal/ake/3dh.go`), together with theorems settling the
frozen claims about them.

Byte strings are modelled as `List Nat`; machine bytes are values `< 256`,
enforced by explicit `% 256` where the Go code performs a `byte(...)`
conversion. The prime-order group, KDF, MAC and hash primitives are external
dependencies of the repository with standard contracts; they are modelled as
a multiplicative cyclic-group model (for the group) and as function-valued
parameters (for KDF/MAC/Hash).
-/

namespace Opaque

/-- Byte strings: lists of naturals (each conceptually `< 256`). -/
abbrev Bytes := List Nat

/-- ASCII bytes of a string literal, used for the protocol tags. -/
def strBytes (s : String) : Bytes := s.data.map Char.toNat

/-! ### Encoding primitives

Modelled from the spec: `I2OSP`, `OS2IP`, `EncodeVector`/`EncodeVectorLen`
live in `internal/encoding` of this repository, which is not under `src/`.
The spec (§4.1) defines them: `I2OSP(n, k)` is the big-endian unsigned
k-byte encoding of `n`; `EncodeVector(b, lenBytes)` is
`I2OSP(len(b), lenBytes) ‖ b`; all uses in the claims keep `n < 2^(8k)`,
so the model truncates mod `2^(8k)` (the Go code fails outside that range). -/

/-- I2OSP: big-endian unsigned `k`-byte encoding of `n` (for `n < 2^(8*k)`). -/
def i2osp (n k : Nat) : Bytes :=
  (List.range k).map (fun i => n / 256 ^ (k - 1 - i) % 256)

/-- OS2IP: big-endian interpretation of a byte string as a natural. -/
def os2ip (b : Bytes) : Nat := b.foldl (fun acc x => acc * 256 + x) 0

/-- EncodeVectorLen: `lenBytes`-byte length prefix followed by the body. -/
def encodeVectorLen (b : Bytes) (lenBytes : Nat) : Bytes :=
  i2osp b.length lenBytes ++ b

/-- EncodeVector: the 2-byte-length-prefixed vector (spec §4.1: all multi-byte
lengths on the wire are 2-byte big-endian unless noted). -/
def encodeVector (b : Bytes) : Bytes := encodeVectorLen b 2

/-! ### Configuration (`opaque.go`, `src/unnamed/part_000`) -/

/-- `Configuration`: OPAQUE parameter set. The seven identifier fields are
1-byte values in Go (`Group`, `hash.Hashing`, `mhf.Identifier`, `Mode` are
byte-sized identifier types); `NonceLen` is an `int`. -/
structure Configuration where
  oprfGroup : Nat
  kdfId : Nat
  macId : Nat
  hashId : Nat
  mhfId : Nat
  mode : Nat
  akeGroup : Nat
  nonceLen : Nat
  deriving DecidableEq, Repr

/-- `Configuration.Serialize`: 8 bytes, the seven identifiers each through a
`byte(...)` conversion (modelled by `% 256`), then `I2OSP(NonceLen, 1)`. -/
def Configuration.serialize (c : Configuration) : Bytes :=
  [c.oprfGroup % 256, c.kdfId % 256, c.macId % 256, c.hashId % 256,
   c.mhfId % 256, c.mode % 256, c.akeGroup % 256] ++ i2osp c.nonceLen 1

/-- `DeserializeConfiguration`: rejects any input whose length is not 8 with
the invalid-length error, otherwise reads the seven identifier bytes and
`OS2IP` of the last byte. -/
def deserializeConfiguration (b : Bytes) : Except String Configuration :=
  if b.length ≠ 8 then .error "invalid length"
  else .ok { oprfGroup := b.getD 0 0, kdfId := b.getD 1 0, macId := b.getD 2 0,
             hashId := b.getD 3 0, mhfId := b.getD 4 0, mode := b.getD 5 0,
             akeGroup := b.getD 6 0, nonceLen := os2ip (b.drop 7) }

/-! ### Group model

The prime-order group is an external dependency (spec §1: group arithmetic is
out of scope, "assumed to exist with standard contracts"). It is modelled as
the cyclic group of order `q` written multiplicatively on exponents: an
element is the exponent of the generator, `Base` is exponent `1`,
`Element.Mult(scalar)` multiplies the exponent by the scalar mod `q`, and a
serialized element/scalar is its one-entry byte string, decodable iff the
value is reduced (`< q`). -/

/-- `Element.Mult`: scalar multiplication in the exponent, mod the order. -/
def elemMult (q e s : Nat) : Nat := e * s % q

/-- `Base`: the group generator (exponent 1). -/
def base (q : Nat) : Nat := 1 % q

/-- `Element.Bytes` / `SerializeScalar`: canonical encoding. -/
def serElem (e : Nat) : Bytes := [e]

/-- `Scalar.Decode` / `Element.Decode`: succeeds iff the encoding is a single
reduced value. -/
def decodeValue (q : Nat) (b : Bytes) : Option Nat :=
  match b with
  | [v] => if v < q then some v else none
  | _ => none

/-- Errors of the 3DH core: the three decode failures of `decodeKeys` and the
`panic(errInvalidSelector)` branches. -/
inductive AkeError where
  | decodeSecretKey
  | decodePeerEphemeral
  | decodePeerPublic
  | invalidSelectorPanic
  deriving DecidableEq, Repr

/-- The `selector` type of `3dh.go`: a boolean, `client = true`,
`server = false`. -/
abbrev Selector := Bool

/-- The `client` selector. -/
def clientSel : Selector := true

/-- The `server` selector. -/
def serverSel : Selector := false

/-- `decodeKeys`: decodes the own secret scalar, the peer ephemeral public
element and the peer static public element, failing on the first bad one. -/
def decodeKeys (q : Nat) (secret peerEpk peerPk : Bytes) :
    Except AkeError (Nat × Nat × Nat) :=
  match decodeValue q secret with
  | none => .error .decodeSecretKey
  | some sk =>
    match decodeValue q peerEpk with
    | none => .error .decodePeerEphemeral
    | some epk =>
      match decodeValue q peerPk with
      | none => .error .decodePeerPublic
      | some pk => .ok (sk, epk, pk)

/-- `k3dh`: `p1·s1 ‖ p2·s2 ‖ p3·s3`, each Diffie–Hellman result serialized. -/
def k3dh (q p1 s1 p2 s2 p3 s3 : Nat) : Bytes :=
  serElem (elemMult q p1 s1) ++ serElem (elemMult q p2 s2) ++
    serElem (elemMult q p3 s3)

/-- `ikm`: decodes the keys, then dispatches on the selector —
client: `DH(epk, esk) ‖ DH(pk, esk) ‖ DH(epk, sk)`;
server: `DH(epk, esk) ‖ DH(epk, sk) ‖ DH(pk, esk)`;
any other selector value would panic. -/
def ikm (s : Selector) (q : Nat) (esk : Nat)
    (secretKey peerEpk peerPublicKey : Bytes) : Except AkeError Bytes :=
  match decodeKeys q secretKey peerEpk peerPublicKey with
  | .error e => .error e
  | .ok (sk, epk, gpk) =>
    if s = clientSel then .ok (k3dh q epk esk gpk esk epk sk)
    else if s = serverSel then .ok (k3dh q epk esk epk sk gpk esk)
    else .error .invalidSelectorPanic

/-! ### KDF / MAC / Hash model

`internal.KDF`, `internal.Mac`, `internal.Hash` wrap external primitives with
standard contracts (spec §6): `Extract(salt, ikm) → prk`,
`Expand(prk, info, L) → L bytes`, `MAC(key, msg) → tag`, and an absorbing
hash with `Write`/`Sum`. The absorbing hash is embedded by threading its
state — the byte string absorbed so far — explicitly; `Sum` applies the
hash function to that state. -/

/-- The KDF of `internal.Parameters`: `Extract`, `Expand`, and `Size() = Nh`. -/
structure KDF where
  extract : Bytes → Bytes → Bytes
  expand : Bytes → Bytes → Nat → Bytes
  size : Nat

/-- `internal.Parameters`: the primitive set a running session carries (the
hash state is threaded separately). `groupOrder` is the AKE group's order. -/
structure Parameters where
  kdf : KDF
  macF : Bytes → Bytes → Bytes
  hashF : Bytes → Bytes
  groupOrder : Nat
  nonceLen : Nat

/-! ### Protocol tags (spec §4.4; `internal` constants, not under `src/`) -/

/-- `LabelPrefix = "OPAQUE-"`. -/
def labelPfx : Bytes := strBytes "OPAQUE-"

/-- `Tag3DH = "3DH"`. -/
def tag3DH : Bytes := strBytes "3DH"

/-- `TagHandshake = "HandshakeSecret"`. -/
def tagHandshake : Bytes := strBytes "HandshakeSecret"

/-- `TagSession = "SessionKey"`. -/
def tagSession : Bytes := strBytes "SessionKey"

/-- `TagMacServer = "ServerMAC"`. -/
def tagMacServer : Bytes := strBytes "ServerMAC"

/-- `TagMacClient = "ClientMAC"`. -/
def tagMacClient : Bytes := strBytes "ClientMAC"

/-- `TagEncServer = "HandshakeEncrypt"`. -/
def tagEncServer : Bytes := strBytes "HandshakeEncrypt"

/-- `EncryptionTag = "EncryptInfo"`. -/
def encryptionTag : Bytes := strBytes "EncryptInfo"

/-! ### Key schedule (`3dh.go`) -/

/-- `buildLabel`: `I2OSP(length, 2) ‖ Vec1(LabelPrefix ‖ label) ‖
Vec1(context)` — note the 2-byte length comes first in the code. -/
def buildLabel (length : Nat) (label context : Bytes) : Bytes :=
  i2osp length 2 ++ encodeVectorLen (labelPfx ++ label) 1 ++
    encodeVectorLen context 1

/-- `expand`: `Expand(secret, hkdfLabel, Size())`. -/
def expandF (h : KDF) (secret hkdfLabel : Bytes) : Bytes :=
  h.expand secret hkdfLabel h.size

/-- `expandLabel`: `expand` under the structured label built by `buildLabel`
with `length = Size()`. -/
def expandLabel (h : KDF) (secret label context : Bytes) : Bytes :=
  expandF h secret (buildLabel h.size label context)

/-- `deriveSecret` is an alias of `expandLabel`. -/
def deriveSecret (h : KDF) (secret label context : Bytes) : Bytes :=
  expandLabel h secret label context

/-- `message.KE1`. Modelled from the spec: the `message` package is not under
`src/`; spec §4.4/§6 give `KE1 = credential_request ‖ client_nonce ‖
client_ephemeral_public`, fixed-length fields concatenated. -/
structure KE1 where
  credentialRequest : Bytes
  clientNonce : Bytes
  clientEpk : Bytes
  deriving DecidableEq, Repr

/-- `KE1.Serialize`. Modelled from the spec: plain concatenation of the three
fields. -/
def KE1.serialize (m : KE1) : Bytes :=
  m.credentialRequest ++ m.clientNonce ++ m.clientEpk

/-- `newInfo`: absorbs `Tag3DH ‖ Vec2(idu) ‖ KE1 ‖ Vec2(ids) ‖ response ‖
nonceS ‖ epks` into the running hash (state-passing form). -/
def newInfo (st : Bytes) (ke1 : KE1) (idu ids response nonceS epks : Bytes) :
    Bytes :=
  st ++ (tag3DH ++ encodeVectorLen idu 2 ++ ke1.serialize ++
    encodeVectorLen ids 2 ++ response ++ nonceS ++ epks)

/-- The `keys` record of `3dh.go`. -/
structure Keys where
  serverMacKey : Bytes
  clientMacKey : Bytes
  handshakeSecret : Bytes
  handshakeEncryptKey : Bytes
  deriving DecidableEq, Repr

/-- `deriveKeys`: `prk = Extract(nil, ikm)`; handshake and session secrets via
`deriveSecret` with the transcript-hash context; the three keys via
`expandLabel` with empty context. -/
def deriveKeys (h : KDF) (ikmB context : Bytes) : Keys × Bytes :=
  let prk := h.extract [] ikmB
  let handshakeSecret := deriveSecret h prk tagHandshake context
  let sessionSecret := deriveSecret h prk tagSession context
  ({ serverMacKey := expandLabel h handshakeSecret tagMacServer []
   , clientMacKey := expandLabel h handshakeSecret tagMacClient []
   , handshakeSecret := handshakeSecret
   , handshakeEncryptKey := expandLabel h handshakeSecret tagEncServer [] },
   sessionSecret)

/-- `internal.Xor`. Modelled from the spec: XOR of equal-length byte strings
(`internal` package, not under `src/`). -/
def xorBytes (a b : Bytes) : Bytes := List.zipWith Nat.xor a b

/-- `cryptInfo`: empty info passes through as empty; otherwise XOR with the
pad `Expand(key, EncryptionTag, len(info))`. -/
def cryptInfo (p : Parameters) (key info : Bytes) : Bytes :=
  if info.length ≠ 0 then
    xorBytes (p.kdf.expand key encryptionTag info.length) info
  else []

/-- `getServerMac`: absorbs `Vec2(einfo)`, then MACs the current hash sum
(transcript2). Returns the tag and the new hash state. -/
def getServerMac (p : Parameters) (st : Bytes) (key einfo : Bytes) :
    Bytes × Bytes :=
  let st2 := st ++ encodeVector einfo
  (p.macF key (p.hashF st2), st2)

/-- The `output` record of `core3DH`. -/
structure Output where
  info : Bytes
  serverMac : Bytes
  clientMac : Bytes
  deriving DecidableEq, Repr

/-- `core3DH`: computes the IKM (propagating decode errors before touching the
hash), absorbs the transcript, derives the key schedule from the current hash
sum, encrypts `info`, picks the server-MAC einfo by selector (client: the
`info` argument as received; server: the `einfo` it just produced; any other
selector would panic), absorbs the server MAC and MACs transcript3. Returns
the 3DH result paired with the final hash state. -/
def core3DH (s : Selector) (p : Parameters) (st : Bytes) (esk : Nat)
    (secretKey peerEpk peerPublicKey epks idu ids nonceS credResp info :
      Bytes) (ke1 : KE1) : Except AkeError (Output × Bytes) × Bytes :=
  match ikm s p.groupOrder esk secretKey peerEpk peerPublicKey with
  | .error e => (.error e, st)
  | .ok ikmB =>
    let st1 := newInfo st ke1 idu ids credResp nonceS epks
    let ks := deriveKeys p.kdf ikmB (p.hashF st1)
    let einfo := cryptInfo p ks.1.handshakeEncryptKey info
    if s = clientSel then
      let sm := getServerMac p st1 ks.1.serverMacKey info
      let st3 := sm.2 ++ sm.1
      (.ok ({ info := einfo, serverMac := sm.1,
              clientMac := p.macF ks.1.clientMacKey (p.hashF st3) }, ks.2),
       st3)
    else if s = serverSel then
      let sm := getServerMac p st1 ks.1.serverMacKey einfo
      let st3 := sm.2 ++ sm.1
      (.ok ({ info := einfo, serverMac := sm.1,
              clientMac := p.macF ks.1.clientMacKey (p.hashF st3) }, ks.2),
       st3)
    else (.error .invalidSelectorPanic, st1)

/-- `setValues`: keeps a supplied scalar and a supplied non-empty nonce,
drawing fresh randomness only for the missing ones. The randomness draws of
the RNG are passed explicitly as `randScalar`/`randNonce`. -/
def setValues (scalar : Option Nat) (nonce : Bytes) (randScalar : Nat)
    (randNonce : Bytes) : Nat × Bytes :=
  (match scalar with
   | some s => s
   | none => randScalar,
   if nonce.length = 0 then randNonce else nonce)

/-! ### Toy primitive instances (used by concrete witnesses) -/

/-- A concrete KDF: `expand` returns exactly the requested number of bytes. -/
def toyKDF : KDF where
  extract := fun s i => s ++ i
  expand := fun k i n => List.replicate n ((k.length + i.length) % 256)
  size := 2

/-- A concrete parameter set over the order-11 group model. -/
def toyP : Parameters where
  kdf := toyKDF
  macF := fun k m => [(k.foldl (· + ·) 0 + m.foldl (· + ·) 0) % 256]
  hashF := fun b => [b.length % 256, b.foldl (· + ·) 0 % 256]
  groupOrder := 11
  nonceLen := 2

/-- A KDF whose `expand` returns its info argument, exposing the HKDF info
that `expandLabel` passes to `Expand`. -/
def infoKDF : KDF where
  extract := fun _ i => i
  expand := fun _ i _ => i
  size := 64

/-- The HKDF info layout in the words of the claim:
`Vec1(LabelPrefix ‖ label) ‖ Vec1(context) ‖ I2OSP(output_length, 2)`,
to be compared with `buildLabel` from the source. -/
def claimedLabelInfo (length : Nat) (label context : Bytes) : Bytes :=
  encodeVectorLen (labelPfx ++ label) 1 ++ encodeVectorLen context 1 ++
    i2osp length 2

/-- C2 counterexample: the info that `expandLabel` passes to `Expand` (made
observable by a KDF returning its info argument) differs from the claimed
`Vec1(LabelPrefix ‖ label) ‖ Vec1(context) ‖ I2OSP(output_length, 2)` order
already at empty label and context: the code emits the 2-byte length first. -/
theorem expand_label_info_order_cex :
    expandLabel infoKDF [] [] [] ≠ claimedLabelInfo infoKDF.size [] [] := by
  decide

/-- C2 (amended): for every KDF, secret, label and context, the HKDF info
that `expandLabel` passes to `Expand` is `I2OSP(output_length, 2) ‖
Vec1(LabelPrefix ‖ label) ‖ Vec1(context)` — the 2-byte output length first,
then the two 1-byte-length-prefixed vectors. -/
theorem expand_label_info_order (h : KDF) (secret label context : Bytes) :
    expandLabel h secret label context =
      h.expand secret
        (i2osp h.size 2 ++ encodeVectorLen (labelPfx ++ label) 1 ++
          encodeVectorLen context 1) h.size := rfl

/-- C5: `deriveKeys` computes `prk = Extract(∅, ikm)`, the handshake and
session secrets as `ExpandLabel(prk, tag, transcript_hash)`, and the three
keys as `ExpandLabel(handshake_secret, tag, ∅)`, each of length
`Nh = KDF.Size()` whenever `Expand` honours its length contract. -/
theorem derive_keys_schedule (h : KDF) (ikmB context : Bytes)
    (hlen : ∀ k i n, (h.expand k i n).length = n) :
    deriveKeys h ikmB context =
      ({ serverMacKey := expandLabel h
           (expandLabel h (h.extract [] ikmB) tagHandshake context)
           tagMacServer []
       , clientMacKey := expandLabel h
           (expandLabel h (h.extract [] ikmB) tagHandshake context)
           tagMacClient []
       , handshakeSecret :=
           expandLabel h (h.extract [] ikmB) tagHandshake context
       , handshakeEncryptKey := expandLabel h
           (expandLabel h (h.extract [] ikmB) tagHandshake context)
           tagEncServer [] },
       expandLabel h (h.extract [] ikmB) tagSession context) ∧
    (deriveKeys h ikmB context).2.length = h.size ∧
    (deriveKeys h ikmB context).1.handshakeSecret.length = h.size ∧
    (deriveKeys h ikmB context).1.serverMacKey.length = h.size ∧
    (deriveKeys h ikmB context).1.clientMacKey.length = h.size ∧
    (deriveKeys h ikmB context).1.handshakeEncryptKey.length = h.size := by
  refine ⟨rfl, ?_, ?_, ?_, ?_, ?_⟩ <;>
    simp [deriveKeys, deriveSecret, expandLabel, expandF, hlen]

/-- C5 witness: the key-schedule theorem at the concrete `toyKDF` on
`ikm = [1, 2]`, `context = [3]`. -/
theorem derive_keys_schedule_witness :
    (∀ k i n, (toyKDF.expand k i n).length = n) ∧
    ((deriveKeys toyKDF [1, 2] [3]).2.length = toyKDF.size ∧
     (deriveKeys toyKDF [1, 2] [3]).1.handshakeSecret.length = toyKDF.size ∧
     (deriveKeys toyKDF [1, 2] [3]).1.serverMacKey.length = toyKDF.size ∧
     (deriveKeys toyKDF [1, 2] [3]).1.clientMacKey.length = toyKDF.size ∧
     (deriveKeys toyKDF [1, 2] [3]).1.handshakeEncryptKey.length =
       toyKDF.size) :=
  ⟨fun k i n => by simp [toyKDF],
   (derive_keys_schedule toyKDF [1, 2] [3]
     (fun k i n => by simp [toyKDF])).2⟩

/-- XOR of byte strings cancels: `a XOR (a XOR b) = b` when lengths agree. -/
lemma xorBytes_cancel (a b : Bytes) (h : a.length = b.length) :
    xorBytes a (xorBytes a b) = b := by
  induction a generalizing b with
  | nil =>
    cases b with
    | nil => rfl
    | cons y ys => simp at h
  | cons x xs ih =>
    cases b with
    | nil => simp at h
    | cons y ys =>
      simp only [List.length_cons] at h
      simp only [xorBytes, List.zipWith_cons_cons, List.cons.injEq]
      exact ⟨Nat.xor_cancel_left x y, ih ys (Nat.succ.inj h)⟩

/-- C7: `cryptInfo` maps empty info to empty output; on non-empty info it is
`info XOR Expand(key, EncryptionTag, len(info))`, of the same length as
`info`; and applying it twice with the same key restores `info` (whenever
`Expand` honours its length contract). -/
theorem crypt_info_correct (p : Parameters) (key info : Bytes)
    (hlen : ∀ k i n, (p.kdf.expand k i n).length = n) :
    (info = [] → cryptInfo p key info = []) ∧
    (cryptInfo p key info).length = info.length ∧
    (info ≠ [] → cryptInfo p key info =
      xorBytes info (p.kdf.expand key encryptionTag info.length)) ∧
    cryptInfo p key (cryptInfo p key info) = info := by
  by_cases hi : info = []
  · subst hi
    simp [cryptInfo]
  · have hne : info.length ≠ 0 := by simpa using hi
    have hpl : (p.kdf.expand key encryptionTag info.length).length =
        info.length := hlen _ _ _
    have hcrypt : ∀ x : Bytes, x.length ≠ 0 → cryptInfo p key x =
        xorBytes (p.kdf.expand key encryptionTag x.length) x := by
      intro x hx
      simp only [cryptInfo]
      rw [if_pos hx]
    have hout := hcrypt info hne
    have houtlen : (cryptInfo p key info).length = info.length := by
      rw [hout]
      simp [xorBytes, hpl]
    refine ⟨fun h => absurd h hi, houtlen, fun _ => ?_, ?_⟩
    · rw [hout]
      exact (List.zipWith_comm_of_comm Nat.xor Nat.xor_comm _ _).symm
    · have houtne : (cryptInfo p key info).length ≠ 0 := by
        rw [houtlen]; exact hne
      rw [hcrypt _ houtne, houtlen, hout]
      exact xorBytes_cancel _ _ hpl

/-- C7 witness: `cryptInfo` on the concrete parameter set, key `[1]`,
info `[5, 6]`. -/
theorem crypt_info_correct_witness :
    (∀ k i n, (toyP.kdf.expand k i n).length = n) ∧
    (([5, 6] : Bytes) = [] → cryptInfo toyP [1] [5, 6] = []) ∧
    (cryptInfo toyP [1] [5, 6]).length = ([5, 6] : Bytes).length ∧
    (([5, 6] : Bytes) ≠ [] → cryptInfo toyP [1] [5, 6] =
      xorBytes [5, 6] (toyP.kdf.expand [1] encryptionTag
        ([5, 6] : Bytes).length)) ∧
    cryptInfo toyP [1] (cryptInfo toyP [1] [5, 6]) = [5, 6] :=
  ⟨fun k i n => by simp [toyP, toyKDF],
   crypt_info_correct toyP [1] [5, 6] (fun k i n => by simp [toyP, toyKDF])⟩

/-- Diffie–Hellman commutation in the group model:
`(base·a)·b = (base·b)·a`. -/
lemma dh_comm (q a b : Nat) :
    elemMult q (elemMult q (base q) a) b =
      elemMult q (elemMult q (base q) b) a := by
  have e : ∀ x y : Nat, elemMult q (elemMult q (base q) x) y = x * y % q := by
    intro x y
    simp only [elemMult, base]
    rw [Nat.mod_mul_mod, Nat.mul_assoc, Nat.mod_mul_mod, Nat.one_mul]
  rw [e, e, Nat.mul_comm]

/-- Both `ikm` calls of a handshake succeed and produce the same byte string,
in the explicit client form. -/
lemma ikm_sym_ok (q skU skS eskU eskS : Nat) (hq : 0 < q) (hU : skU < q)
    (hS : skS < q) :
    ikm clientSel q eskU (serElem skU) (serElem (elemMult q (base q) eskS))
        (serElem (elemMult q (base q) skS)) =
      .ok (k3dh q (elemMult q (base q) eskS) eskU (elemMult q (base q) skS)
        eskU (elemMult q (base q) eskS) skU) ∧
    ikm serverSel q eskS (serElem skS) (serElem (elemMult q (base q) eskU))
        (serElem (elemMult q (base q) skU)) =
      .ok (k3dh q (elemMult q (base q) eskS) eskU (elemMult q (base q) skS)
        eskU (elemMult q (base q) eskS) skU) := by
  have hd : ∀ v : Nat, v < q → decodeValue q (serElem v) = some v := by
    intro v hv
    simp [decodeValue, serElem, hv]
  have hmod : ∀ x : Nat, elemMult q (base q) x < q :=
    fun x => Nat.mod_lt _ hq
  constructor
  · simp [ikm, decodeKeys, hd _ hU, hd _ (hmod eskS), hd _ (hmod skS),
      clientSel]
  · simp only [ikm, decodeKeys, hd _ hS, hd _ (hmod eskU), hd _ (hmod skU)]
    simp only [clientSel, serverSel, if_neg (by decide : ¬False = true),
      if_pos rfl]
    have h1 := dh_comm q eskU eskS
    have h2 := dh_comm q eskU skS
    have h3 := dh_comm q skU eskS
    simp [k3dh, serElem, h1, h2, h3]

/-- C3: IKM symmetry — with `pkU = base·skU`, `pkS = base·skS`,
`epkU = base·eskU`, `epkS = base·eskS` over the AKE group, `ikm` with the
client selector on `(eskU, skU, epkS, pkS)` and `ikm` with the server
selector on `(eskS, skS, epkU, pkU)` both succeed and return identical byte
strings `DH(epkS,eskU) ‖ DH(pkS,eskU) ‖ DH(epkS,skU)`. -/
theorem ikm_symmetry (q skU skS eskU eskS : Nat) (hq : 0 < q)
    (hU : skU < q) (hS : skS < q) :
    ∃ K, ikm clientSel q eskU (serElem skU)
        (serElem (elemMult q (base q) eskS))
        (serElem (elemMult q (base q) skS)) = .ok K ∧
      ikm serverSel q eskS (serElem skS)
        (serElem (elemMult q (base q) eskU))
        (serElem (elemMult q (base q) skU)) = .ok K ∧
      K = k3dh q (elemMult q (base q) eskS) eskU (elemMult q (base q) skS)
        eskU (elemMult q (base q) eskS) skU :=
  ⟨_, (ikm_sym_ok q skU skS eskU eskS hq hU hS).1,
    (ikm_sym_ok q skU skS eskU eskS hq hU hS).2, rfl⟩

/-- C3 witness: IKM symmetry in the order-11 group with
`skU = 2`, `skS = 3`, `eskU = 4`, `eskS = 5`. -/
theorem ikm_symmetry_witness :
    (0 < 11 ∧ 2 < 11 ∧ 3 < 11) ∧
    ∃ K, ikm clientSel 11 4 (serElem 2) (serElem (elemMult 11 (base 11) 5))
        (serElem (elemMult 11 (base 11) 3)) = .ok K ∧
      ikm serverSel 11 5 (serElem 3) (serElem (elemMult 11 (base 11) 4))
        (serElem (elemMult 11 (base 11) 2)) = .ok K ∧
      K = k3dh 11 (elemMult 11 (base 11) 5) 4 (elemMult 11 (base 11) 3) 4
        (elemMult 11 (base 11) 5) 2 :=
  ⟨by decide, ikm_symmetry 11 2 3 4 5 (by decide) (by decide) (by decide)⟩

/-- Closed form of a successful client-side `core3DH` run. -/
lemma core3DH_client_eq (p : Parameters) (st : Bytes) (esk : Nat)
    (secretKey peerEpk peerPublicKey epks idu ids nonceS credResp info :
      Bytes) (ke1 : KE1) (K : Bytes)
    (h : ikm clientSel p.groupOrder esk secretKey peerEpk peerPublicKey =
      .ok K) :
    core3DH clientSel p st esk secretKey peerEpk peerPublicKey epks idu ids
        nonceS credResp info ke1 =
      (let st1 := newInfo st ke1 idu ids credResp nonceS epks
       let ks := deriveKeys p.kdf K (p.hashF st1)
       let einfo := cryptInfo p ks.1.handshakeEncryptKey info
       let sm := getServerMac p st1 ks.1.serverMacKey info
       let st3 := sm.2 ++ sm.1
       (.ok ({ info := einfo, serverMac := sm.1,
               clientMac := p.macF ks.1.clientMacKey (p.hashF st3) }, ks.2),
        st3)) := by
  simp only [core3DH]
  rw [h]
  rfl

/-- Closed form of a successful server-side `core3DH` run. -/
lemma core3DH_server_eq (p : Parameters) (st : Bytes) (esk : Nat)
    (secretKey peerEpk peerPublicKey epks idu ids nonceS credResp info :
      Bytes) (ke1 : KE1) (K : Bytes)
    (h : ikm serverSel p.groupOrder esk secretKey peerEpk peerPublicKey =
      .ok K) :
    core3DH serverSel p st esk secretKey peerEpk peerPublicKey epks idu ids
        nonceS credResp info ke1 =
      (let st1 := newInfo st ke1 idu ids credResp nonceS epks
       let ks := deriveKeys p.kdf K (p.hashF st1)
       let einfo := cryptInfo p ks.1.handshakeEncryptKey info
       let sm := getServerMac p st1 ks.1.serverMacKey einfo
       let st3 := sm.2 ++ sm.1
       (.ok ({ info := einfo, serverMac := sm.1,
               clientMac := p.macF ks.1.clientMacKey (p.hashF st3) }, ks.2),
        st3)) := by
  simp only [core3DH]
  rw [h]
  rfl

/-- C1: session-key agreement — with both parties' long-term and ephemeral
key pairs over the AKE group, identical transcript inputs and identical
initial hash state, the server-selector and client-selector `core3DH` runs
both succeed; they return equal session secrets, and when the client's
`einfo` input is the server's produced `einfo` output, also equal server
MACs and equal client MACs. -/
theorem session_key_agreement (p : Parameters) (skU skS eskU eskS : Nat)
    (st idu ids nonceS credResp info : Bytes) (ke1 : KE1)
    (hq : 0 < p.groupOrder) (hU : skU < p.groupOrder)
    (hS : skS < p.groupOrder) :
    ∃ outS secretS tS outC secretC tC,
      core3DH serverSel p st eskS (serElem skS)
          (serElem (elemMult p.groupOrder (base p.groupOrder) eskU))
          (serElem (elemMult p.groupOrder (base p.groupOrder) skU))
          (serElem (elemMult p.groupOrder (base p.groupOrder) eskS))
          idu ids nonceS credResp info ke1 = (.ok (outS, secretS), tS) ∧
      core3DH clientSel p st eskU (serElem skU)
          (serElem (elemMult p.groupOrder (base p.groupOrder) eskS))
          (serElem (elemMult p.groupOrder (base p.groupOrder) skS))
          (serElem (elemMult p.groupOrder (base p.groupOrder) eskS))
          idu ids nonceS credResp outS.info ke1 = (.ok (outC, secretC), tC) ∧
      secretC = secretS ∧ outC.serverMac = outS.serverMac ∧
      outC.clientMac = outS.clientMac := by
  obtain ⟨hC, hSrv⟩ :=
    ikm_sym_ok p.groupOrder skU skS eskU eskS hq hU hS
  exact ⟨_, _, _, _, _, _,
    core3DH_server_eq p st eskS _ _ _ _ idu ids nonceS credResp info ke1 _
      hSrv,
    core3DH_client_eq p st eskU _ _ _ _ idu ids nonceS credResp _ ke1 _ hC,
    rfl, rfl, rfl⟩

/-- C1 witness: session-key agreement in the order-11 group of the concrete
parameter set, with `skU = 2`, `skS = 3`, `eskU = 4`, `eskS = 5`. -/
theorem session_key_agreement_witness :
    (0 < toyP.groupOrder ∧ 2 < toyP.groupOrder ∧ 3 < toyP.groupOrder) ∧
    ∃ outS secretS tS outC secretC tC,
      core3DH serverSel toyP [7] 5 (serElem 3)
          (serElem (elemMult toyP.groupOrder (base toyP.groupOrder) 4))
          (serElem (elemMult toyP.groupOrder (base toyP.groupOrder) 2))
          (serElem (elemMult toyP.groupOrder (base toyP.groupOrder) 5))
          [1] [2] [8] [9] [1, 2] (KE1.mk [1] [2] [3]) =
        (.ok (outS, secretS), tS) ∧
      core3DH clientSel toyP [7] 4 (serElem 2)
          (serElem (elemMult toyP.groupOrder (base toyP.groupOrder) 5))
          (serElem (elemMult toyP.groupOrder (base toyP.groupOrder) 3))
          (serElem (elemMult toyP.groupOrder (base toyP.groupOrder) 5))
          [1] [2] [8] [9] outS.info (KE1.mk [1] [2] [3]) =
        (.ok (outC, secretC), tC) ∧
      secretC = secretS ∧ outC.serverMac = outS.serverMac ∧
      outC.clientMac = outS.clientMac :=
  ⟨by decide,
   session_key_agreement toyP 2 3 4 5 [7] [1] [2] [8] [9] [1, 2]
     (KE1.mk [1] [2] [3]) (by decide) (by decide) (by decide)⟩

/-- C4: transcript discipline — a successful `core3DH` run absorbs exactly
`Tag3DH ‖ Vec2(client_identity) ‖ KE1 ‖ Vec2(server_identity) ‖
credential_response ‖ server_nonce ‖ server_ephemeral_public` into the
running hash, then `Vec2(einfo)` with `server_mac = MAC(server_mac_key,
transcript2)`, then `server_mac` with `client_mac = MAC(client_mac_key,
transcript3)`; the final hash state is transcript3's preimage. -/
theorem transcript_discipline (s : Selector) (p : Parameters) (st : Bytes)
    (esk : Nat) (secretKey peerEpk peerPublicKey epks idu ids nonceS credResp
      info : Bytes) (ke1 : KE1) (out : Output) (secret t3 : Bytes)
    (h : core3DH s p st esk secretKey peerEpk peerPublicKey epks idu ids
      nonceS credResp info ke1 = (.ok (out, secret), t3)) :
    ∃ K, ikm s p.groupOrder esk secretKey peerEpk peerPublicKey = .ok K ∧
      (let t1 := st ++ (tag3DH ++ encodeVectorLen idu 2 ++ ke1.serialize ++
         encodeVectorLen ids 2 ++ credResp ++ nonceS ++ epks)
       let ks := deriveKeys p.kdf K (p.hashF t1)
       let einfoUsed := if s = clientSel then info else out.info
       let t2 := t1 ++ encodeVectorLen einfoUsed 2
       out.serverMac = p.macF ks.1.serverMacKey (p.hashF t2) ∧
       out.clientMac = p.macF ks.1.clientMacKey
         (p.hashF (t2 ++ out.serverMac)) ∧
       t3 = t2 ++ out.serverMac) := by
  cases hik : ikm s p.groupOrder esk secretKey peerEpk peerPublicKey with
  | error e =>
    rw [core3DH, hik] at h
    exact absurd (congrArg Prod.fst h) (by simp)
  | ok K =>
    refine ⟨K, rfl, ?_⟩
    by_cases hs : s = clientSel
    · subst hs
      rw [core3DH_client_eq p st esk _ _ _ _ idu ids nonceS credResp info
        ke1 K hik] at h
      have h1 := congrArg Prod.fst h
      have h2 := congrArg Prod.snd h
      simp only [Prod.fst, Prod.snd, Except.ok.injEq, Prod.mk.injEq] at h1 h2
      obtain ⟨hout, -⟩ := h1
      subst h2
      rw [← hout]
      simp [getServerMac, newInfo, encodeVector, clientSel]
    · have hs2 : s = serverSel := by
        revert hs
        cases s <;> simp [clientSel, serverSel]
      subst hs2
      rw [core3DH_server_eq p st esk _ _ _ _ idu ids nonceS credResp info
        ke1 K hik] at h
      have h1 := congrArg Prod.fst h
      have h2 := congrArg Prod.snd h
      simp only [Prod.fst, Prod.snd, Except.ok.injEq, Prod.mk.injEq] at h1 h2
      obtain ⟨hout, -⟩ := h1
      subst h2
      rw [← hout]
      simp [getServerMac, newInfo, encodeVector, clientSel, serverSel]

/-- C4 witness: the transcript-discipline theorem at a concrete successful
client-side run on the concrete parameter set. -/
theorem transcript_discipline_witness :
    core3DH clientSel toyP [7] 4 [2] [5] [3] [5] [1] [2] [8] [9] [1, 2]
        (KE1.mk [1] [2] [3]) =
      (.ok (Output.mk [12, 15] [44] [89], [26, 26]),
       [7, 51, 68, 72, 0, 1, 1, 1, 2, 3, 0, 1, 2, 9, 8, 5, 0, 2, 1, 2,
        44]) ∧
    (∃ K, ikm clientSel toyP.groupOrder 4 [2] [5] [3] = .ok K ∧
      (let t1 := ([7] : Bytes) ++ (tag3DH ++ encodeVectorLen [1] 2 ++
         (KE1.mk [1] [2] [3]).serialize ++ encodeVectorLen [2] 2 ++ [9] ++
         [8] ++ [5])
       let ks := deriveKeys toyP.kdf K (toyP.hashF t1)
       let einfoUsed := if clientSel = clientSel then ([1, 2] : Bytes)
         else (Output.mk [12, 15] [44] [89]).info
       let t2 := t1 ++ encodeVectorLen einfoUsed 2
       (Output.mk [12, 15] [44] [89]).serverMac =
         toyP.macF ks.1.serverMacKey (toyP.hashF t2) ∧
       (Output.mk [12, 15] [44] [89]).clientMac =
         toyP.macF ks.1.clientMacKey (toyP.hashF
           (t2 ++ (Output.mk [12, 15] [44] [89]).serverMac)) ∧
       [7, 51, 68, 72, 0, 1, 1, 1, 2, 3, 0, 1, 2, 9, 8, 5, 0, 2, 1, 2, 44] =
         t2 ++ (Output.mk [12, 15] [44] [89]).serverMac)) :=
  ⟨by rfl,
   transcript_discipline clientSel toyP [7] 4 [2] [5] [3] [5] [1] [2] [8]
     [9] [1, 2] (KE1.mk [1] [2] [3]) (Output.mk [12, 15] [44] [89]) [26, 26]
     [7, 51, 68, 72, 0, 1, 1, 1, 2, 3, 0, 1, 2, 9, 8, 5, 0, 2, 1, 2, 44]
     (by rfl)⟩

/-- C10: the `panic(errInvalidSelector)` branches of `ikm` and `core3DH` are
unreachable — for every selector value (the type has exactly `client` and
`server`) and all inputs, neither function reaches the panic outcome. -/
theorem no_selector_panic (s : Selector) (p : Parameters) (st : Bytes)
    (esk : Nat) (secretKey peerEpk peerPublicKey epks idu ids nonceS credResp
      info : Bytes) (ke1 : KE1) :
    ikm s p.groupOrder esk secretKey peerEpk peerPublicKey ≠
      .error .invalidSelectorPanic ∧
    (core3DH s p st esk secretKey peerEpk peerPublicKey epks idu ids nonceS
      credResp info ke1).1 ≠ .error .invalidSelectorPanic := by
  have hik : ikm s p.groupOrder esk secretKey peerEpk peerPublicKey ≠
      .error .invalidSelectorPanic := by
    unfold ikm decodeKeys
    cases decodeValue p.groupOrder secretKey with
    | none => simp
    | some sk =>
      cases decodeValue p.groupOrder peerEpk with
      | none => simp
      | some epk =>
        cases decodeValue p.groupOrder peerPublicKey with
        | none => simp
        | some pk => cases s <;> simp [clientSel, serverSel]
  refine ⟨hik, ?_⟩
  unfold core3DH
  cases hres : ikm s p.groupOrder esk secretKey peerEpk peerPublicKey with
  | error e =>
    have : e ≠ .invalidSelectorPanic := fun hc => hik (hc ▸ hres)
    simp [this]
  | ok K => cases s <;> simp [clientSel, serverSel]

/-- C10 witness: no panic outcome on a concrete client-side run. -/
theorem no_selector_panic_witness :
    ikm clientSel toyP.groupOrder 4 [2] [5] [3] ≠
      .error .invalidSelectorPanic ∧
    (core3DH clientSel toyP [7] 4 [2] [5] [3] [5] [1] [2] [8] [9] [1, 2]
      (KE1.mk [1] [2] [3])).1 ≠ .error .invalidSelectorPanic :=
  no_selector_panic clientSel toyP [7] 4 [2] [5] [3] [5] [1] [2] [8] [9]
    [1, 2] (KE1.mk [1] [2] [3])

/-- C8: determinism — `setValues` given a non-nil scalar and a non-empty
nonce ignores the RNG draws and returns exactly that scalar and nonce, for
any two draws of randomness; and `core3DH` is a function of its inputs, so
two runs on identical inputs return identical outputs. -/
theorem deterministic_runs (scalar : Nat) (nonce : Bytes) (r1 r2 : Nat)
    (n1 n2 : Bytes) (hnonce : nonce ≠ [])
    (s : Selector) (p : Parameters) (st : Bytes) (esk : Nat)
    (secretKey peerEpk peerPublicKey epks idu ids nonceS credResp info :
      Bytes) (ke1 : KE1) :
    setValues (some scalar) nonce r1 n1 = (scalar, nonce) ∧
    setValues (some scalar) nonce r2 n2 = (scalar, nonce) ∧
    core3DH s p st esk secretKey peerEpk peerPublicKey epks idu ids nonceS
        credResp info ke1 =
      core3DH s p st esk secretKey peerEpk peerPublicKey epks idu ids nonceS
        credResp info ke1 := by
    have hlen : nonce.length ≠ 0 := by simpa using hnonce
    exact ⟨by simp [setValues, hlen], by simp [setValues, hlen], rfl⟩

/-- C8 witness: `setValues` at scalar 7, nonce `[9]`, two distinct RNG draws,
and a `core3DH` run on the concrete parameter set. -/
theorem deterministic_runs_witness :
    ([9] : Bytes) ≠ [] ∧
    setValues (some 7) [9] 3 [1] = (7, [9]) ∧
    setValues (some 7) [9] 4 [2] = (7, [9]) ∧
    core3DH clientSel toyP [] 4 [2] [5] [3] [5] [] [] [8] [9] [1, 2]
        (KE1.mk [1] [2] [3]) =
      core3DH clientSel toyP [] 4 [2] [5] [3] [5] [] [] [8] [9] [1, 2]
        (KE1.mk [1] [2] [3]) :=
  ⟨by decide,
   deterministic_runs 7 [9] 3 4 [1] [2] (by decide) clientSel toyP [] 4 [2]
     [5] [3] [5] [] [] [8] [9] [1, 2] (KE1.mk [1] [2] [3])⟩

/-- Whether an `Except` value is an error. -/
def isErr {α β : Type} (x : Except α β) : Bool :=
  match x with
  | .error _ => true
  | .ok _ => false

/-- C9: `core3DH` fails exactly when `decodeKeys` fails on one of its three
key inputs, and on that error path the hash state it returns is the input
hash state, untouched. -/
theorem core3DH_error_atomic (s : Selector) (p : Parameters) (st : Bytes)
    (esk : Nat) (secretKey peerEpk peerPublicKey epks idu ids nonceS credResp
      info : Bytes) (ke1 : KE1) :
    isErr (core3DH s p st esk secretKey peerEpk peerPublicKey epks idu ids
        nonceS credResp info ke1).1 =
      isErr (decodeKeys p.groupOrder secretKey peerEpk peerPublicKey) ∧
    (∀ e, (core3DH s p st esk secretKey peerEpk peerPublicKey epks idu ids
        nonceS credResp info ke1).1 = .error e →
      (core3DH s p st esk secretKey peerEpk peerPublicKey epks idu ids nonceS
        credResp info ke1).2 = st) := by
  unfold core3DH ikm
  cases hdk : decodeKeys p.groupOrder secretKey peerEpk peerPublicKey with
  | error e => simp [isErr]
  | ok tr =>
    obtain ⟨sk, epk, pk⟩ := tr
    cases s <;> simp [clientSel, serverSel, isErr]

/-- C9 witness: on a non-decodable secret key (`[99]` is not reduced mod 11)
`core3DH` errors and returns the initial hash state `[7]` unchanged. -/
theorem core3DH_error_atomic_witness :
    isErr (core3DH clientSel toyP [7] 4 [99] [5] [3] [5] [] [] [8] [9] [1, 2]
        (KE1.mk [1] [2] [3])).1 =
      isErr (decodeKeys toyP.groupOrder [99] [5] [3]) ∧
    (core3DH clientSel toyP [7] 4 [99] [5] [3] [5] [] [] [8] [9] [1, 2]
        (KE1.mk [1] [2] [3])).2 = [7] :=
  ⟨(core3DH_error_atomic clientSel toyP [7] 4 [99] [5] [3] [5] [] [] [8] [9]
      [1, 2] (KE1.mk [1] [2] [3])).1,
   (core3DH_error_atomic clientSel toyP [7] 4 [99] [5] [3] [5] [] [] [8] [9]
      [1, 2] (KE1.mk [1] [2] [3])).2 .decodeSecretKey (by rfl)⟩

/-- C6: for every `Configuration` (its seven identifier fields byte-valued, as
their Go types force, and `NonceLen ≤ 255`), `Serialize` is exactly 8 bytes and
`DeserializeConfiguration` inverts it; and for every byte string `b`,
`DeserializeConfiguration b` is the invalid-length error iff `b` is not
8 bytes long. -/
theorem configuration_roundtrip (c : Configuration) (b : Bytes)
    (h0 : c.oprfGroup ≤ 255) (h1 : c.kdfId ≤ 255) (h2 : c.macId ≤ 255)
    (h3 : c.hashId ≤ 255) (h4 : c.mhfId ≤ 255) (h5 : c.mode ≤ 255)
    (h6 : c.akeGroup ≤ 255) (h7 : c.nonceLen ≤ 255) :
    c.serialize.length = 8 ∧
    deserializeConfiguration c.serialize = .ok c ∧
    (deserializeConfiguration b = .error "invalid length" ↔ b.length ≠ 8) := by
  refine ⟨?_, ?_, ?_⟩
  · simp [Configuration.serialize, i2osp]
  · have e0 := Nat.mod_eq_of_lt (Nat.lt_succ_of_le h0)
    have e1 := Nat.mod_eq_of_lt (Nat.lt_succ_of_le h1)
    have e2 := Nat.mod_eq_of_lt (Nat.lt_succ_of_le h2)
    have e3 := Nat.mod_eq_of_lt (Nat.lt_succ_of_le h3)
    have e4 := Nat.mod_eq_of_lt (Nat.lt_succ_of_le h4)
    have e5 := Nat.mod_eq_of_lt (Nat.lt_succ_of_le h5)
    have e6 := Nat.mod_eq_of_lt (Nat.lt_succ_of_le h6)
    have e7 := Nat.mod_eq_of_lt (Nat.lt_succ_of_le h7)
    simp [Configuration.serialize, deserializeConfiguration, i2osp, os2ip,
      List.range_succ, e0, e1, e2, e3, e4, e5, e6, e7]
  · constructor
    · intro h
      intro hlen
      simp [deserializeConfiguration, hlen] at h
    · intro h
      simp [deserializeConfiguration, h]

/-- C6 witness: the round-trip theorem applied at the default configuration
(Ristretto255/SHA-512 identifiers, nonce length 32) and a 3-byte input. -/
theorem configuration_roundtrip_witness :
    (Configuration.mk 1 7 7 7 3 1 1 32).serialize.length = 8 ∧
    deserializeConfiguration (Configuration.mk 1 7 7 7 3 1 1 32).serialize =
      .ok (Configuration.mk 1 7 7 7 3 1 1 32) ∧
    (deserializeConfiguration [1, 2, 3] = .error "invalid length" ↔
      ([1, 2, 3] : Bytes).length ≠ 8) :=
  configuration_roundtrip (Configuration.mk 1 7 7 7 3 1 1 32) [1, 2, 3]
    (by decide) (by decide) (by decide) (by decide) (by decide) (by decide)
    (by decide) (by decide)

end Opaque
